import Mathlib

/-!
Shallow embedding of the multi-select widget and its host pages.

Sources:
* `src/unnamed/part_000` — MultiSelect component (option fields
  `productName`, `id`, `isChecked`); handlers `handleToggleOption`,
  `handleClear`, `handleToggleAll`; badge rendering in the trigger button.
* `src/unnamed/part_001` — identical component save for the flag field name
  (`isSelectedForProductBenefit` instead of `isChecked`); the handler logic
  is line-for-line the same, so one embedding covers both.
* `src/app/routes/home.tsx` — page with `fetchProducts` guard
  (`if (products.length > 0) return`) and the "Selected Products" list.
* `src/app/routes/about.tsx` — page with the same `fetchProducts` guard.

Effectful handlers are modelled as functions returning an `ActionResult`
that records the new selection, the list of `onValueChange` invocations
(in order, with their argument), and the option array after the handler's
in-place `forEach` mutations (rendered functionally as a `map`).
-/

namespace MultiSelectSpec

/-- Option record of the MultiSelect widget (`src/unnamed/part_000` lines
65-72): `productName`, `id`, `isChecked`. -/
structure MSOption where
  productName : String
  id : String
  isChecked : Bool
  deriving DecidableEq

/-- Selection update of `handleToggleOption` (`src/unnamed/part_000` lines
178-180): if `selectedValues.includes(id)` then
`selectedValues.filter((v) => v !== id)` else `[...selectedValues, id]`. -/
def handleToggleOption (selectedValues : List String) (id : String) :
    List String :=
  if id ∈ selectedValues then
    selectedValues.filter (fun v => v ≠ id)
  else
    selectedValues ++ [id]

/-- Observable effects of one widget action: the new `selectedValues`
state, the arguments of each `onValueChange` call (in call order), and the
caller's `options` array after the handler ran (the source mutates the
option objects in place; the post-state is rendered as a `map`). -/
structure ActionResult where
  newSelectedValues : List String
  callbackCalls : List (List String)
  newOptions : List MSOption
  deriving DecidableEq

/-- Full effect of `handleToggleOption` (`src/unnamed/part_000` lines
177-190): computes the new selection, calls `onValueChange` once with it,
and flips `isChecked` in place on every option whose id matches. -/
def handleToggleOptionFull (options : List MSOption)
    (selectedValues : List String) (id : String) : ActionResult :=
  let newSelectedValues := handleToggleOption selectedValues id
  { newSelectedValues := newSelectedValues
    callbackCalls := [newSelectedValues]
    newOptions := options.map (fun o =>
      if o.id = id then { o with isChecked := !o.isChecked } else o) }

/-- Full effect of `handleClear` (`src/unnamed/part_000` lines 192-200):
empties the selection, calls `onValueChange([])`, and sets every option's
`isChecked` to false in place. -/
def handleClearFull (options : List MSOption) : ActionResult :=
  { newSelectedValues := []
    callbackCalls := [[]]
    newOptions := options.map (fun o => { o with isChecked := false }) }

/-- Full effect of `handleToggleAll` (`src/unnamed/part_000` lines
202-216): if every option has `isChecked` it delegates to `handleClear`;
otherwise the selection becomes `options.map((o) => o.id)`,
`onValueChange` is called with that list, and every option's `isChecked`
is set to true in place. The current selection is not read. -/
def handleToggleAllFull (options : List MSOption) : ActionResult :=
  if options.all (fun o => o.isChecked) then
    handleClearFull options
  else
    let allIds := options.map (fun o => o.id)
    { newSelectedValues := allIds
      callbackCalls := [allIds]
      newOptions := options.map (fun o => { o with isChecked := true }) }

/-- A selection-mutating user action on the widget. -/
inductive WidgetOp where
  | toggle (id : String)
  | clear
  | toggleAll
  deriving DecidableEq

/-- The widget state the three handlers read and write: the `options`
array (shared with the caller and mutated in place) and `selectedValues`. -/
structure WidgetState where
  options : List MSOption
  selectedValues : List String
  deriving DecidableEq

/-- One widget action applied to the widget state. -/
def applyOp (s : WidgetState) (op : WidgetOp) : WidgetState :=
  match op with
  | .toggle id =>
    let r := handleToggleOptionFull s.options s.selectedValues id
    { options := r.newOptions, selectedValues := r.newSelectedValues }
  | .clear =>
    let r := handleClearFull s.options
    { options := r.newOptions, selectedValues := r.newSelectedValues }
  | .toggleAll =>
    let r := handleToggleAllFull s.options
    { options := r.newOptions, selectedValues := r.newSelectedValues }

/-- A finite sequence of widget actions applied left to right. -/
def applyOps (s : WidgetState) (ops : List WidgetOp) : WidgetState :=
  ops.foldl applyOp s

/-- A finite sequence of single-item toggles applied to a selection. -/
def applyToggles (selectedValues : List String) (ids : List String) :
    List String :=
  ids.foldl handleToggleOption selectedValues

/-- The ids toggled an odd number of times, in the order of each id's
first occurrence in the toggle sequence. This follows the WORDS of the
spec sentence "in first-toggle order" (for the C2 comparison); it is not a
translation of the source. -/
def specFirstToggleOrder (ops : List String) : List String :=
  (ops.foldl (fun acc id => if id ∈ acc then acc else acc ++ [id]) []).filter
    (fun id => Odd (ops.count id))

/-- The claim's "s with x moved to the last position", following the
spec's words: erase x, then append it. Used only to compare with the
code's double-toggle behaviour. -/
def specMoveToLast (s : List String) (x : String) : List String :=
  s.erase x ++ [x]

/- ### Helper lemmas about the toggle operation -/

theorem mem_handleToggleOption (s : List String) (id y : String) :
    y ∈ handleToggleOption s id ↔ (if y = id then id ∉ s else y ∈ s) := by
  unfold handleToggleOption
  by_cases hid : id ∈ s
  · rw [if_pos hid]
    by_cases hy : y = id
    · subst hy
      simp [hid]
    · simp [hy]
  · rw [if_neg hid]
    by_cases hy : y = id
    · subst hy
      simp [hid]
    · simp [hy]

theorem nodup_handleToggleOption {s : List String} (h : s.Nodup)
    (id : String) : (handleToggleOption s id).Nodup := by
  unfold handleToggleOption
  by_cases hid : id ∈ s
  · rw [if_pos hid]
    exact h.filter _
  · rw [if_neg hid]
    rw [List.nodup_append]
    exact ⟨h, List.nodup_singleton id, List.disjoint_singleton.mpr hid⟩

theorem nodup_applyToggles {s : List String} (h : s.Nodup)
    (ids : List String) : (applyToggles s ids).Nodup := by
  induction ids generalizing s with
  | nil => exact h
  | cons id rest ih => exact ih (nodup_handleToggleOption h id)

theorem mem_applyToggles (ids : List String) (s : List String) (y : String) :
    y ∈ applyToggles s ids ↔ ((y ∈ s) ↔ Even (ids.count y)) := by
  induction ids generalizing s with
  | nil => simp [applyToggles]
  | cons id rest ih =>
    have hstep : applyToggles s (id :: rest) =
        applyToggles (handleToggleOption s id) rest := rfl
    rw [hstep, ih, mem_handleToggleOption]
    by_cases hy : y = id
    · subst hy
      rw [List.count_cons_self, Nat.even_add_one, if_pos rfl]
      tauto
    · rw [List.count_cons_of_ne hy, if_neg hy]

theorem applyToggles_append_singleton (s ids : List String) (x : String) :
    applyToggles s (ids ++ [x]) = handleToggleOption (applyToggles s ids) x := by
  unfold applyToggles
  rw [List.foldl_append]
  rfl

theorem mem_applyToggles_nil (ids : List String) (y : String) :
    y ∈ applyToggles [] ids ↔ Odd (ids.count y) := by
  rw [mem_applyToggles ids [] y]
  simp [Nat.not_even_iff_odd]

/-- Appending one element to a list moves its deduplicated occurrence to
the end: `dedup` keeps last occurrences. -/
theorem dedup_append_singleton (ids : List String) (x : String) :
    (ids ++ [x]).dedup = ids.dedup.filter (fun v => v ≠ x) ++ [x] := by
  induction ids with
  | nil => simp
  | cons a rest ih =>
    show (a :: (rest ++ [x])).dedup = _
    by_cases hax : a = x
    · subst hax
      rw [List.dedup_cons_of_mem (show a ∈ rest ++ [a] by simp), ih]
      by_cases har : a ∈ rest
      · rw [List.dedup_cons_of_mem har]
      · rw [List.dedup_cons_of_not_mem har,
          List.filter_cons_of_neg (by simp)]
    · by_cases har : a ∈ rest
      · rw [List.dedup_cons_of_mem (show a ∈ rest ++ [x] by simp [har]), ih,
          List.dedup_cons_of_mem har]
      · rw [List.dedup_cons_of_not_mem
            (show a ∉ rest ++ [x] by simp [har, hax]), ih,
          List.dedup_cons_of_not_mem har,
          List.filter_cons_of_pos (by simp [hax])]
        rfl

/- ### Claim theorems -/

/-- C1: toggling id removes it from the selection when present (keeping
the other ids, as a subsequence, with membership unchanged) and appends it
at the end when absent; in both cases `onValueChange` is invoked exactly
once, with the full new ordered id sequence. -/
theorem toggle_spec (options : List MSOption) (sel : List String)
    (id : String) :
    (handleToggleOptionFull options sel id).callbackCalls =
      [(handleToggleOptionFull options sel id).newSelectedValues] ∧
    (id ∈ sel →
      id ∉ (handleToggleOptionFull options sel id).newSelectedValues ∧
      (handleToggleOptionFull options sel id).newSelectedValues.Sublist sel ∧
      ∀ y, y ≠ id →
        (y ∈ (handleToggleOptionFull options sel id).newSelectedValues ↔
          y ∈ sel)) ∧
    (id ∉ sel →
      (handleToggleOptionFull options sel id).newSelectedValues =
        sel ++ [id]) := by
  refine ⟨rfl, ?_, ?_⟩
  · intro hid
    have hnew : (handleToggleOptionFull options sel id).newSelectedValues =
        handleToggleOption sel id := rfl
    refine ⟨?_, ?_, ?_⟩
    · rw [hnew, mem_handleToggleOption, if_pos rfl]
      exact fun h => h hid
    · rw [hnew]
      unfold handleToggleOption
      rw [if_pos hid]
      exact List.filter_sublist sel
    · intro y hy
      rw [hnew, mem_handleToggleOption, if_neg hy]
  · intro hid
    show handleToggleOption sel id = sel ++ [id]
    unfold handleToggleOption
    rw [if_neg hid]

/-- C1 witness: toggling a present id removes it; toggling an absent id
appends it at the end. -/
theorem toggle_spec_witness :
    "a" ∉ (handleToggleOptionFull [] ["a", "b"] "a").newSelectedValues ∧
    (handleToggleOptionFull [] ["a", "b"] "c").newSelectedValues =
      ["a", "b"] ++ ["c"] :=
  ⟨((toggle_spec [] ["a", "b"] "a").2.1 (by decide)).1,
    (toggle_spec [] ["a", "b"] "c").2.2 (by decide)⟩

/-- C2 counterexample: toggling a, b, a, a from the empty selection yields
["b", "a"], but the odd-toggled ids in first-toggle order are ["a", "b"]:
the resulting selection is NOT ordered by first toggle. -/
theorem toggle_sequence_not_first_toggle_order :
    applyToggles [] ["a", "b", "a", "a"] = ["b", "a"] ∧
    specFirstToggleOrder ["a", "b", "a", "a"] = ["a", "b"] ∧
    applyToggles [] ["a", "b", "a", "a"] ≠
      specFirstToggleOrder ["a", "b", "a", "a"] := by
  refine ⟨by decide, by decide, by decide⟩

/-- C2 (amended): for every finite sequence of toggles starting from the
empty selection, the resulting selection is exactly the toggled ids
deduplicated keeping each id's LAST occurrence (most-recent-toggle order)
and restricted to the ids toggled an odd number of times; in particular it
is duplicate-free and its members are exactly the odd-toggled ids. It is
not ordered by first toggle. -/
theorem toggle_sequence_parity (ids : List String) :
    applyToggles [] ids =
      ids.dedup.filter (fun id => Odd (ids.count id)) ∧
    (applyToggles [] ids).Nodup ∧
    ∀ y, (y ∈ applyToggles [] ids ↔ Odd (ids.count y)) := by
  refine ⟨?_, nodup_applyToggles List.nodup_nil ids, mem_applyToggles_nil ids⟩
  induction ids using List.reverseRecOn with
  | nil => rfl
  | append_singleton ids x ih =>
    have hcx : (ids ++ [x]).count x = ids.count x + 1 := by
      rw [List.count_append, List.count_singleton]
      simp
    have hcy : ∀ y, y ≠ x → (ids ++ [x]).count y = ids.count y := by
      intro y hy
      rw [List.count_append, List.count_singleton]
      simp [Ne.symm hy]
    rw [applyToggles_append_singleton, dedup_append_singleton,
      List.filter_append]
    by_cases hodd : Odd (ids.count x)
    · have hxL : x ∈ applyToggles [] ids :=
        (mem_applyToggles_nil ids x).mpr hodd
      rw [show handleToggleOption (applyToggles [] ids) x =
          (applyToggles [] ids).filter (fun v => v ≠ x) from by
        unfold handleToggleOption
        rw [if_pos hxL]]
      rw [ih, List.filter_filter, List.filter_filter]
      have hsing : List.filter
          (fun id => decide (Odd ((ids ++ [x]).count id))) [x] = [] := by
        rw [List.filter_singleton, hcx]
        simp [Nat.odd_add_one, hodd]
      rw [hsing, List.append_nil]
      apply List.filter_congr
      intro a _
      by_cases hax : a = x
      · subst hax
        simp
      · simp [hax, hcy a hax]
    · have hxL : x ∉ applyToggles [] ids :=
        fun h => hodd ((mem_applyToggles_nil ids x).mp h)
      rw [show handleToggleOption (applyToggles [] ids) x =
          applyToggles [] ids ++ [x] from by
        unfold handleToggleOption
        rw [if_neg hxL]]
      rw [ih]
      have hsing : List.filter
          (fun id => decide (Odd ((ids ++ [x]).count id))) [x] = [x] := by
        rw [List.filter_singleton, hcx]
        simp [Nat.odd_add_one, hodd]
      rw [hsing]
      congr 1
      rw [List.filter_filter]
      apply List.filter_congr
      intro a _
      by_cases hax : a = x
      · subst hax
        simp [hodd]
      · simp [hax, hcy a hax]

/-- C10 counterexample: on the selection ["a", "a"] (which contains "a"),
toggling "a" twice yields ["a"], which is not ["a", "a"] with "a" moved to
the last position. -/
theorem toggle_twice_not_move_to_last :
    "a" ∈ (["a", "a"] : List String) ∧
    handleToggleOption (handleToggleOption ["a", "a"] "a") "a" = ["a"] ∧
    specMoveToLast ["a", "a"] "a" = ["a", "a"] ∧
    handleToggleOption (handleToggleOption ["a", "a"] "a") "a" ≠
      specMoveToLast ["a", "a"] "a" := by
  refine ⟨by decide, by decide, by decide, by decide⟩

/-- C10 (amended): toggling x twice yields a selection with exactly the
same members as s; if x was not in s the result is s exactly; if x was in
s the result is s with every occurrence of x removed and a single x
appended at the end — in particular, for a duplicate-free s, s with x
moved to the last position. -/
theorem toggle_twice_spec (s : List String) (x : String) :
    (∀ y, y ∈ handleToggleOption (handleToggleOption s x) x ↔ y ∈ s) ∧
    (x ∉ s → handleToggleOption (handleToggleOption s x) x = s) ∧
    (x ∈ s → handleToggleOption (handleToggleOption s x) x =
      s.filter (fun v => v ≠ x) ++ [x]) ∧
    (s.Nodup → x ∈ s →
      handleToggleOption (handleToggleOption s x) x = s.erase x ++ [x]) := by
  have hfilter_self : x ∉ s → s.filter (fun v => v ≠ x) = s := by
    intro hx
    exact List.filter_eq_self.mpr (fun v hv =>
      decide_eq_true (fun h : v = x => hx (h ▸ hv)))
  have hmain : x ∈ s → handleToggleOption (handleToggleOption s x) x =
      s.filter (fun v => v ≠ x) ++ [x] := by
    intro hx
    have h1 : handleToggleOption s x = s.filter (fun v => v ≠ x) := by
      unfold handleToggleOption
      rw [if_pos hx]
    have hxnot : x ∉ s.filter (fun v => v ≠ x) := by
      intro hmem
      have := (List.mem_filter.mp hmem).2
      simp at this
    rw [h1]
    unfold handleToggleOption
    rw [if_neg hxnot]
  refine ⟨?_, ?_, hmain, ?_⟩
  · intro y
    rw [mem_handleToggleOption]
    by_cases hy : y = x
    · subst hy
      rw [if_pos rfl, mem_handleToggleOption, if_pos rfl]
      exact not_not
    · rw [if_neg hy, mem_handleToggleOption, if_neg hy]
  · intro hx
    have h1 : handleToggleOption s x = s ++ [x] := by
      unfold handleToggleOption
      rw [if_neg hx]
    have hx2 : x ∈ s ++ [x] := List.mem_append_right s (by simp)
    rw [h1]
    unfold handleToggleOption
    rw [if_pos hx2, List.filter_append, hfilter_self hx]
    simp
  · intro hnd hx
    rw [hmain hx, hnd.erase_eq_filter x]
    congr 1
    exact List.filter_congr (fun v _ => by
      by_cases hvx : v = x <;> simp [hvx])

/-- Flipping the flag of the options matching an id preserves the ids. -/
theorem map_id_flip (options : List MSOption) (id : String) :
    (options.map (fun o =>
      if o.id = id then { o with isChecked := !o.isChecked } else o)).map
        (fun o => o.id) = options.map (fun o => o.id) := by
  rw [List.map_map]
  exact List.map_congr_left (fun o _ => by
    simp only [Function.comp_apply]
    by_cases h : o.id = id <;> simp [h])

/-- Setting every option's flag to a constant preserves the ids. -/
theorem map_id_setFlag (options : List MSOption) (b : Bool) :
    (options.map (fun o => { o with isChecked := b })).map
      (fun o => o.id) = options.map (fun o => o.id) := by
  rw [List.map_map]
  exact List.map_congr_left (fun o _ => rfl)

/-- No widget action changes the id sequence of the option list (only the
flags are written). -/
theorem applyOp_option_ids (s : WidgetState) (op : WidgetOp) :
    (applyOp s op).options.map (fun o => o.id) =
      s.options.map (fun o => o.id) := by
  cases op with
  | toggle id => exact map_id_flip s.options id
  | clear => exact map_id_setFlag s.options false
  | toggleAll =>
    show ((handleToggleAllFull s.options).newOptions).map (fun o => o.id) = _
    unfold handleToggleAllFull
    split
    · exact map_id_setFlag s.options false
    · exact map_id_setFlag s.options true

/-- Each single widget action preserves duplicate-freedom of the
selection, given duplicate-free option ids. -/
theorem applyOp_nodup (s : WidgetState) (op : WidgetOp)
    (hids : (s.options.map (fun o => o.id)).Nodup)
    (hsel : s.selectedValues.Nodup) :
    ((applyOp s op).selectedValues).Nodup := by
  cases op with
  | toggle id => exact nodup_handleToggleOption hsel id
  | clear => exact List.nodup_nil
  | toggleAll =>
    show ((handleToggleAllFull s.options).newSelectedValues).Nodup
    unfold handleToggleAllFull
    split
    · exact List.nodup_nil
    · exact hids

/-- C3: select-all behaves exactly as Clear (empty selection, callback
with []) when every listed option is already selected (isChecked), and
otherwise selects the full list of option ids in option-list order; in
both cases `onValueChange` fires exactly once. The handler reads no
selection state, so this holds for every current selection. -/
theorem toggleAll_spec (options : List MSOption) :
    (options.all (fun o => o.isChecked) = true →
      handleToggleAllFull options = handleClearFull options ∧
      (handleToggleAllFull options).newSelectedValues = [] ∧
      (handleToggleAllFull options).callbackCalls = [[]]) ∧
    (options.all (fun o => o.isChecked) = false →
      (handleToggleAllFull options).newSelectedValues =
        options.map (fun o => o.id) ∧
      (handleToggleAllFull options).callbackCalls =
        [options.map (fun o => o.id)]) := by
  constructor
  · intro h
    unfold handleToggleAllFull
    rw [if_pos h]
    exact ⟨rfl, rfl, rfl⟩
  · intro h
    unfold handleToggleAllFull
    rw [if_neg (by simp [h])]
    exact ⟨rfl, rfl⟩

/-- C3 witness: with a single fully-checked option select-all clears; with
a single unchecked option it selects all ids. -/
theorem toggleAll_spec_witness :
    (handleToggleAllFull [⟨"A", "a", true⟩]).newSelectedValues = [] ∧
    (handleToggleAllFull [⟨"A", "a", false⟩]).newSelectedValues = ["a"] := by
  refine ⟨((toggleAll_spec [⟨"A", "a", true⟩]).1 (by decide)).2.1, ?_⟩
  rw [((toggleAll_spec [⟨"A", "a", false⟩]).2 (by decide)).1]
  decide

/-- C4 (code-bug evidence): the handlers mutate the caller-owned option
objects in place — toggling "a" flips the option's `isChecked` field, so
the options array after the handler differs from the one passed in. -/
theorem toggle_mutates_caller_options :
    (handleToggleOptionFull [⟨"A", "a", false⟩] [] "a").newOptions =
      [⟨"A", "a", true⟩] ∧
    ([⟨"A", "a", true⟩] : List MSOption) ≠ [⟨"A", "a", false⟩] := by
  refine ⟨by decide, by decide⟩

/-- C9: if the option ids are pairwise distinct and the selection starts
duplicate-free, then after any sequence of toggle, clear, and select-all
actions the selection contains no duplicate ids. -/
theorem selection_nodup_invariant (ops : List WidgetOp) (s : WidgetState)
    (hids : (s.options.map (fun o => o.id)).Nodup)
    (hsel : s.selectedValues.Nodup) :
    ((applyOps s ops).selectedValues).Nodup := by
  induction ops generalizing s with
  | nil => exact hsel
  | cons op rest ih =>
    have h1 : applyOps s (op :: rest) = applyOps (applyOp s op) rest := rfl
    rw [h1]
    apply ih
    · rw [applyOp_option_ids]
      exact hids
    · exact applyOp_nodup s op hids hsel

/-- C9 witness: a concrete mixed action sequence on two distinct options
leaves a duplicate-free selection. -/
theorem selection_nodup_invariant_witness :
    ((applyOps ⟨[⟨"A", "a", false⟩, ⟨"B", "b", false⟩], []⟩
      [WidgetOp.toggle "a", WidgetOp.toggleAll, WidgetOp.toggle "b",
        WidgetOp.clear, WidgetOp.toggle "a"]).selectedValues).Nodup :=
  selection_nodup_invariant
    [WidgetOp.toggle "a", WidgetOp.toggleAll, WidgetOp.toggle "b",
      WidgetOp.clear, WidgetOp.toggle "a"]
    ⟨[⟨"A", "a", false⟩, ⟨"B", "b", false⟩], []⟩ (by decide) (by decide)

/-- C10 witness: toggling an absent id twice restores the selection
exactly; for a duplicate-free selection containing the id, the id moves to
the last position. -/
theorem toggle_twice_spec_witness :
    handleToggleOption (handleToggleOption ["b"] "a") "a" = ["b"] ∧
    handleToggleOption (handleToggleOption ["a", "b"] "a") "a" =
      ["b", "a"] := by
  refine ⟨(toggle_twice_spec ["b"] "a").2.1 (by decide), ?_⟩
  rw [(toggle_twice_spec ["a", "b"] "a").2.2.2 (by decide) (by decide)]
  decide

/- ### Page model: product fetch guard (home.tsx / about.tsx) -/

/-- Product record fetched by the pages (`src/app/routes/home.tsx` lines
4-8): `id : number`, `title`, `category`. -/
structure Product where
  id : Nat
  title : String
  category : String
  deriving DecidableEq

/-- Page state read and written by `fetchProducts`: the `products` list and
the `loading` flag. -/
structure HomeState where
  products : List Product
  loading : Bool
  deriving DecidableEq

/-- `fetchProducts` of `src/app/routes/home.tsx` lines 15-27, with the
fetch run to completion atomically (sequential semantics): if products is
already non-empty, return without fetching; otherwise issue the fetch,
store the response, and clear `loading`. The returned Bool records whether
a network fetch was issued; `data` is the response's product list. -/
def fetchProducts (s : HomeState) (data : List Product) : HomeState × Bool :=
  if s.products.length > 0 then (s, false)
  else ({ products := data, loading := false }, true)

/-- Repeated panel opens within one page lifetime: the widget's
`onOpenChange` handler (`src/unnamed/part_000` lines 221-226) calls
`onOpen` — i.e. `fetchProducts` — on every open event; close events touch
no page state. Returns the final state and how many fetches were issued,
one list entry (the would-be response) per open. -/
def runOpens (s : HomeState) (fetches : List (List Product)) :
    HomeState × Nat :=
  match fetches with
  | [] => (s, 0)
  | data :: rest =>
    let r := fetchProducts s data
    let k := runOpens r.1 rest
    (k.1, (if r.2 then 1 else 0) + k.2)

/-- Once products is non-empty, any number of further opens issues no
fetch and leaves the page state unchanged. -/
theorem runOpens_loaded (fetches : List (List Product)) (s : HomeState)
    (h : s.products ≠ []) : runOpens s fetches = (s, 0) := by
  induction fetches with
  | nil => rfl
  | cons data rest ih =>
    have hguard : fetchProducts s data = (s, false) := by
      unfold fetchProducts
      rw [if_pos (List.length_pos.mpr h)]
    show (let r := fetchProducts s data
      let k := runOpens r.1 rest
      (k.1, (if r.2 then 1 else 0) + k.2)) = (s, 0)
    rw [hguard]
    show ((runOpens s rest).1, (if false then 1 else 0) + (runOpens s rest).2)
      = (s, 0)
    rw [ih]
    simp

/-- C5: once the product data is non-empty, repeated open/close cycles
never issue another data load (zero fetches, state unchanged); and over a
whole page lifetime, as long as every fetch response is non-empty, the
composed open handler and fetch guard issue at most one fetch. -/
theorem fetch_at_most_once (s : HomeState) (fetches : List (List Product)) :
    (s.products ≠ [] →
      (runOpens s fetches).2 = 0 ∧ (runOpens s fetches).1 = s) ∧
    ((∀ d ∈ fetches, d ≠ []) → (runOpens s fetches).2 ≤ 1) := by
  constructor
  · intro h
    rw [runOpens_loaded fetches s h]
    exact ⟨rfl, rfl⟩
  · intro hne
    induction fetches with
    | nil => exact Nat.zero_le 1
    | cons data rest ih =>
      by_cases h : s.products = []
      · have hguard : fetchProducts s data =
            ({ products := data, loading := false }, true) := by
          unfold fetchProducts
          rw [if_neg (by simp [h])]
        have hrest : runOpens { products := data, loading := false } rest =
            ({ products := data, loading := false }, 0) :=
          runOpens_loaded rest _ (hne data (by simp))
        show ((if (fetchProducts s data).2 then 1 else 0) +
            (runOpens (fetchProducts s data).1 rest).2) ≤ 1
        rw [hguard]
        show (if true then 1 else 0) +
          (runOpens { products := data, loading := false } rest).2 ≤ 1
        rw [hrest]
        simp
      · have h2 := runOpens_loaded (data :: rest) s h
        rw [h2]
        exact Nat.zero_le 1

/-- C5 witness: with products already loaded, two further opens issue no
fetch; from empty, two opens with non-empty responses issue one fetch. -/
theorem fetch_at_most_once_witness :
    (runOpens ⟨[⟨1, "p", "c"⟩], false⟩ [[⟨2, "q", "c"⟩], [⟨3, "r", "c"⟩]]).2
      = 0 ∧
    (runOpens ⟨[], false⟩ [[⟨2, "q", "c"⟩], [⟨3, "r", "c"⟩]]).2 ≤ 1 :=
  ⟨((fetch_at_most_once ⟨[⟨1, "p", "c"⟩], false⟩
      [[⟨2, "q", "c"⟩], [⟨3, "r", "c"⟩]]).1 (by decide)).1,
    (fetch_at_most_once ⟨[], false⟩
      [[⟨2, "q", "c"⟩], [⟨3, "r", "c"⟩]]).2 (by decide)⟩

/-- Page state for the interleaved (asynchronous) view of `fetchProducts`:
`pendingFetches` counts fetches issued but not yet completed. -/
structure AsyncPageState where
  products : List Product
  loading : Bool
  pendingFetches : Nat
  deriving DecidableEq

/-- An event of the page's event loop: a panel open (which runs the
synchronous prefix of `fetchProducts` up to its await — the guard, then
`setLoading(true)` and the fetch being issued), or the completion of one
pending fetch (the code after the await: store products, clear loading). -/
inductive PageEvent where
  | openPanel
  | fetchComplete (data : List Product)
  deriving DecidableEq

/-- One event step of the page, from `fetchProducts` of
`src/app/routes/home.tsx` lines 15-27 (the guard is
`if (products.length > 0) return`). -/
def stepEvent (s : AsyncPageState) (e : PageEvent) : AsyncPageState :=
  match e with
  | .openPanel =>
    if s.products.length > 0 then s
    else { s with loading := true, pendingFetches := s.pendingFetches + 1 }
  | .fetchComplete data =>
    { products := data, loading := false,
      pendingFetches := s.pendingFetches - 1 }

/-- C6 (code-bug evidence): opening the panel twice while the first fetch
is still pending (products still empty) issues a second, overlapping
fetch: the already-loaded guard does not prevent concurrent fetches. -/
theorem second_open_issues_overlapping_fetch :
    stepEvent (stepEvent ⟨[], false, 0⟩ PageEvent.openPanel)
      PageEvent.openPanel = ⟨[], true, 2⟩ := by
  decide

/- ### Badge rendering (part_000 lines 238-271) and home confirmation list -/

/-- A badge rendered in the trigger button: an item badge for one selected
id (showing the option's productName, with its remove affordance), or the
single "+K more" overflow badge. -/
inductive BadgeView where
  | item (id : String) (productName : String)
  | more (count : Nat)
  deriving DecidableEq

/-- The item badges: `ids.map((id) => ...)` where each id is resolved by
`options.find((o) => o.id === id)` and unresolved ids render null
(`src/unnamed/part_000` lines 241-261). `renderBadges` passes in the
`slice(0, maxCount)` prefix. -/
def itemBadges (options : List MSOption) (ids : List String) :
    List BadgeView :=
  ids.filterMap (fun id =>
    (options.find? (fun o => o.id == id)).map
      (fun o => BadgeView.item id o.productName))

/-- Badge row of the trigger (`src/unnamed/part_000` lines 238-271): when
the selection is non-empty, the first maxCount selected ids as item
badges, followed — when more are selected — by one
"+(length − maxCount) more" badge; otherwise only the placeholder (no
badges). -/
def renderBadges (options : List MSOption) (selectedValues : List String)
    (maxCount : Nat) : List BadgeView :=
  if selectedValues.length > 0 then
    itemBadges options (selectedValues.take maxCount) ++
      (if selectedValues.length > maxCount then
        [BadgeView.more (selectedValues.length - maxCount)]
      else [])
  else []

/-- The ids of the item badges in a badge row, in render order. -/
def badgeIds (bs : List BadgeView) : List String :=
  bs.filterMap (fun b => match b with
    | BadgeView.item id _ => some id
    | BadgeView.more _ => none)

/-- The overflow ("+K more") badges of a badge row. -/
def moreBadges (bs : List BadgeView) : List BadgeView :=
  bs.filter (fun b => match b with
    | BadgeView.item _ _ => false
    | BadgeView.more _ => true)

/-- Confirmation list of `src/app/routes/home.tsx` lines 51-54: one
(key, title) entry per selected id that resolves via
`products.find((p) => p.id.toString() === productId)`; unresolved ids
render nothing. -/
def homeSelectedList (products : List Product)
    (selectedProducts : List String) : List (String × String) :=
  selectedProducts.filterMap (fun pid =>
    (products.find? (fun p => toString p.id == pid)).map
      (fun p => (pid, p.title)))

theorem badgeIds_itemBadges (options : List MSOption) (ids : List String) :
    badgeIds (itemBadges options ids) =
      ids.filter (fun id => (options.find? (fun o => o.id == id)).isSome) := by
  induction ids with
  | nil => rfl
  | cons id rest ih =>
    show badgeIds (List.filterMap _ (id :: rest)) = _
    rw [List.filterMap_cons]
    cases h : options.find? (fun o => o.id == id) with
    | none =>
      show badgeIds (itemBadges options rest) = _
      rw [ih, List.filter_cons_of_neg (by simp [h])]
    | some o =>
      show id :: badgeIds (itemBadges options rest) = _
      rw [ih, List.filter_cons_of_pos (by simp [h])]

theorem moreBadges_itemBadges (options : List MSOption) (ids : List String) :
    moreBadges (itemBadges options ids) = [] := by
  induction ids with
  | nil => rfl
  | cons id rest ih =>
    show moreBadges (List.filterMap _ (id :: rest)) = _
    rw [List.filterMap_cons]
    cases h : options.find? (fun o => o.id == id) with
    | none =>
      show moreBadges (itemBadges options rest) = _
      exact ih
    | some o =>
      show moreBadges (itemBadges options rest) = _
      exact ih

theorem badgeIds_append (bs cs : List BadgeView) :
    badgeIds (bs ++ cs) = badgeIds bs ++ badgeIds cs :=
  List.filterMap_append bs cs _

theorem moreBadges_append (bs cs : List BadgeView) :
    moreBadges (bs ++ cs) = moreBadges bs ++ moreBadges cs :=
  List.filter_append bs cs

theorem badgeIds_overflow (c : Prop) [Decidable c] (k : Nat) :
    badgeIds (if c then [BadgeView.more k] else []) = [] := by
  split <;> rfl

/-- C7: with maxCount = 3 and a selection of 5 ids that all resolve to
options, the rendered badge row shows exactly the first 3 selected ids
(in selection order) as item badges and exactly one "+2 more" badge. -/
theorem badge_truncation (options : List MSOption) (sel : List String)
    (h5 : sel.length = 5)
    (hmatch : ∀ id ∈ sel,
      (options.find? (fun o => o.id == id)).isSome = true) :
    badgeIds (renderBadges options sel 3) = sel.take 3 ∧
    moreBadges (renderBadges options sel 3) = [BadgeView.more 2] := by
  have hpos : sel.length > 0 := by rw [h5]; norm_num
  have hgt : sel.length > 3 := by rw [h5]; norm_num
  unfold renderBadges
  rw [if_pos hpos, if_pos hgt]
  constructor
  · rw [badgeIds_append, badgeIds_itemBadges]
    rw [show badgeIds [BadgeView.more (sel.length - 3)] = [] from rfl]
    rw [List.append_nil]
    exact List.filter_eq_self.mpr
      (fun a ha => hmatch a (List.take_subset 3 sel ha))
  · rw [moreBadges_append, moreBadges_itemBadges, List.nil_append]
    show [BadgeView.more (sel.length - 3)] = [BadgeView.more 2]
    rw [h5]

/-- Demo option list for the C7 witness. -/
def demoOptions : List MSOption :=
  [⟨"A", "a", false⟩, ⟨"B", "b", false⟩, ⟨"C", "c", false⟩,
    ⟨"D", "d", false⟩, ⟨"E", "e", false⟩]

/-- Demo selection of size 5 for the C7 witness. -/
def demoSel : List String := ["a", "b", "c", "d", "e"]

/-- C7 witness: the concrete 5-id selection renders its first three ids
and a single "+2 more" badge. -/
theorem badge_truncation_witness :
    badgeIds (renderBadges demoOptions demoSel 3) = demoSel.take 3 ∧
    moreBadges (renderBadges demoOptions demoSel 3) = [BadgeView.more 2] :=
  badge_truncation demoOptions demoSel (by decide) (by decide)

/-- C8: a selected id with no matching option and no matching product (a
stale id) is simply skipped: it yields no badge in the widget's badge row
and no entry in the page's confirmation list (rendering is total — no
exception is possible in the model). -/
theorem stale_id_skipped (options : List MSOption) (products : List Product)
    (sel : List String) (id : String) (maxCount : Nat)
    (_hsel : id ∈ sel)
    (hopt : options.find? (fun o => o.id == id) = none)
    (hprod : products.find? (fun p => toString p.id == id) = none) :
    id ∉ badgeIds (renderBadges options sel maxCount) ∧
    id ∉ (homeSelectedList products sel).map Prod.fst := by
  constructor
  · intro hmem
    unfold renderBadges at hmem
    by_cases hlen : sel.length > 0
    · rw [if_pos hlen, badgeIds_append, badgeIds_itemBadges,
        badgeIds_overflow, List.append_nil] at hmem
      have := (List.mem_filter.mp hmem).2
      rw [hopt] at this
      simp at this
    · rw [if_neg hlen] at hmem
      exact List.not_mem_nil id hmem
  · intro hmem
    rw [List.mem_map] at hmem
    obtain ⟨e, hmem2, hfst⟩ := hmem
    unfold homeSelectedList at hmem2
    rw [List.mem_filterMap] at hmem2
    obtain ⟨a, _, hfa⟩ := hmem2
    cases hf : products.find? (fun p => toString p.id == a) with
    | none =>
      rw [hf, Option.map_none'] at hfa
      exact Option.noConfusion hfa
    | some p =>
      rw [hf, Option.map_some'] at hfa
      have he : e = (a, p.title) := (Option.some.injEq _ _).mp hfa.symm
      have ha_id : a = id := by
        rw [he] at hfst
        exact hfst
      rw [ha_id] at hf
      rw [hprod] at hf
      exact Option.noConfusion hf

/-- C8 witness: the stale id "z" (in the selection, matching no option and
no product) yields no badge and no confirmation-list entry. -/
theorem stale_id_skipped_witness :
    "z" ∉ badgeIds (renderBadges [⟨"A", "a", false⟩] ["z"] 3) ∧
    "z" ∉ (homeSelectedList [⟨1, "P", "c"⟩] ["z"]).map Prod.fst :=
  stale_id_skipped [⟨"A", "a", false⟩] [⟨1, "P", "c"⟩] ["z"] "z" 3
    (by decide) (by decide) (by decide)

end MultiSelectSpec
